import Mathlib

/-!
Verification development for the bsondb storage engine: a shallow embedding
of the collection document store (`src/lib/IndexManager.js`, second file:
`Collection`), the encryption codec (`src/unnamed/part_004`, `Encryption`),
and the file-backed secondary index maintenance (`IndexManager.updateFileIndex`),
together with theorems settling the specification claims about them.
-/

namespace BsonDB

/-- A JavaScript value as stored in a BSON document.  Numbers are modelled as
integers (no claim depends on float behaviour); `vId` is a bson `ObjectId`
carrying its hex string; `vDoc` is a nested object as an insertion-ordered
association list, `vArr` an array. -/
inductive Value where
  | vNull
  | vNum (n : Int)
  | vStr (s : String)
  | vBool (b : Bool)
  | vId (oid : String)
  | vArr (elems : List Value)
  | vDoc (fields : List (String × Value))

/-- A document: a JavaScript object, i.e. an insertion-ordered association
list of field name to value (keys unique in well-formed objects). -/
abbrev Doc := List (String × Value)

/-- `obj[key]`: the first binding of `key`, `none` for `undefined`. -/
def getField (d : Doc) (k : String) : Option Value :=
  match d with
  | [] => none
  | (k', v) :: rest => if k' == k then some v else getField rest k

/-- `obj[key] = v`: JavaScript assignment keeps the position of an existing
key and appends a new key at the end. -/
def setKey (d : Doc) (k : String) (v : Value) : Doc :=
  match d with
  | [] => [(k, v)]
  | (k', v') :: rest => if k' == k then (k, v) :: rest else (k', v') :: setKey rest k v

/-- `delete obj[key]`. -/
def delKey (d : Doc) (k : String) : Doc :=
  d.filter (fun p => p.1 ≠ k)

/-- JavaScript truthiness on our value type: `null`, `0`, `""` and `false`
are falsy; objects, arrays and ObjectIds are always truthy. -/
def isTruthy : Value → Bool
  | Value.vNull => false
  | Value.vNum n => n != 0
  | Value.vStr s => s != ""
  | Value.vBool b => b
  | Value.vId _ => true
  | Value.vArr _ => true
  | Value.vDoc _ => true

mutual

/-- JavaScript `String(value)` restricted to our value type (arrays join their
elements' string forms with a comma, per `Array.prototype.toString`; objects
render as `[object Object]`). -/
def jsToString : Value → String
  | Value.vNull => "null"
  | Value.vNum n => toString n
  | Value.vStr s => s
  | Value.vBool b => if b then "true" else "false"
  | Value.vId oid => oid
  | Value.vArr elems => jsToStringList elems
  | Value.vDoc _ => "[object Object]"

def jsToStringList : List Value → String
  | [] => ""
  | [v] => jsToString v
  | v :: rest => jsToString v ++ "," ++ jsToStringList rest

end

/-- JavaScript strict equality `===` on our value type: structural on
primitives; arrays, objects and ObjectIds compare by reference, so two
separately constructed ones are never strictly equal. -/
def jsStrictEq : Value → Value → Bool
  | Value.vNull, Value.vNull => true
  | Value.vNum a, Value.vNum b => a == b
  | Value.vStr a, Value.vStr b => a == b
  | Value.vBool a, Value.vBool b => a == b
  | _, _ => false

/-- `doc[key] === value` where the field may be `undefined` (query values in
our model are never `undefined`, and `undefined === v` is then false). -/
def jsStrictEqO : Option Value → Value → Bool
  | some x, v => jsStrictEq x v
  | none, _ => false

/-- JavaScript `<` restricted to same-kind numeric and string comparisons
(the only comparisons the stored documents exercise); all other pairs are
modelled as not-less. -/
def jsLt : Value → Value → Bool
  | Value.vNum a, Value.vNum b => decide (a < b)
  | Value.vStr a, Value.vStr b => decide (a < b)
  | _, _ => false

/-- `aVal < bVal` on possibly-`undefined` operands: comparisons against
`undefined` are false in JavaScript. -/
def jsLtO : Option Value → Option Value → Bool
  | some a, some b => jsLt a b
  | _, _ => false

/-- `aVal > bVal`; in our model `a > b` coincides with `b < a`. -/
def jsGtO (a b : Option Value) : Bool := jsLtO b a

/-- JavaScript `>=` on possibly-`undefined` operands: on same-kind numeric or
string operands it is the negation of `<`; any comparison involving
`undefined` (or kinds our model does not order) is false. -/
def jsGeO : Option Value → Option Value → Bool
  | some (Value.vNum a), some (Value.vNum b) => decide (b ≤ a)
  | some (Value.vStr a), some (Value.vStr b) => !(decide (a < b))
  | _, _ => false

/-- JavaScript `<=`, dual to `jsGeO`. -/
def jsLeO (a b : Option Value) : Bool := jsGeO b a

/-- The value side of one query entry, shaped the way `Collection.matchDocument`
inspects it: a primitive literal (the non-object branch `doc[key] !== value`),
an object, whose entries are read as an operator map, or an array of
sub-queries as consumed by the `$or` / `$and` branches. -/
inductive QVal where
  | prim (v : Value)
  | obj (ops : List (String × Value))
  | subs (qs : List (List (String × QVal)))

/-- A query: a JavaScript object mapping keys (field names or `$or` / `$and`)
to query values, iterated in insertion order by `Object.entries`. -/
abbrev Query := List (String × QVal)

/-- Embeds `Collection.matchOperator` (`src/lib/IndexManager.js:583`).
`regexTest` models `new RegExp(value).test(fieldValue)`, whose semantics live
in the JavaScript runtime, not in this repository.  `$in` / `$nin` are
modelled for array operands (`value.includes(fieldValue)`); the `default`
branch of the `switch` returns `false`. -/
def matchOperator (regexTest : Value → Option Value → Bool)
    (fieldValue : Option Value) (operator : String) (value : Value) : Bool :=
  if operator == "$eq" then jsStrictEqO fieldValue value
  else if operator == "$ne" then !jsStrictEqO fieldValue value
  else if operator == "$gt" then jsGtO fieldValue (some value)
  else if operator == "$gte" then jsGeO fieldValue (some value)
  else if operator == "$lt" then jsLtO fieldValue (some value)
  else if operator == "$lte" then jsLeO fieldValue (some value)
  else if operator == "$in" then
    match value with
    | Value.vArr elems =>
      match fieldValue with
      | some x => elems.any (fun w => jsStrictEq x w)
      | none => false
    | _ => false
  else if operator == "$nin" then
    !(match value with
      | Value.vArr elems =>
        match fieldValue with
        | some x => elems.any (fun w => jsStrictEq x w)
        | none => false
      | _ => false)
  else if operator == "$regex" then regexTest value fieldValue
  else false

mutual

/-- Embeds `Collection.matchDocument` (`src/lib/IndexManager.js:560`): every
query entry must pass; the key is dispatched first (`$or`, `$and`), then the
shape of the value (object → operator map, otherwise literal equality).
A non-array value under `$or` / `$and` or an array of sub-queries under a
plain key would throw in the source; such ill-shaped entries are modelled as
non-matching. -/
def matchDocument (rt : Value → Option Value → Bool) (doc : Doc) : Query → Bool
  | [] => true
  | (k, qv) :: rest => matchEntry rt doc k qv && matchDocument rt doc rest

/-- One `[key, value]` entry of the query object. -/
def matchEntry (rt : Value → Option Value → Bool) (doc : Doc) (k : String) : QVal → Bool
  | QVal.prim v => jsStrictEqO (getField doc k) v
  | QVal.obj ops =>
    if k == "$or" || k == "$and" then false
    else matchOps rt (getField doc k) ops
  | QVal.subs qs =>
    if k == "$or" then matchAnyQ rt doc qs
    else if k == "$and" then matchAllQ rt doc qs
    else false

/-- The inner loop over an operator map: all operators must match. -/
def matchOps (rt : Value → Option Value → Bool) (fv : Option Value) : List (String × Value) → Bool
  | [] => true
  | (op, w) :: rest => matchOperator rt fv op w && matchOps rt fv rest

/-- `value.some(condition => matchDocument(doc, condition))`. -/
def matchAnyQ (rt : Value → Option Value → Bool) (doc : Doc) : List Query → Bool
  | [] => false
  | q :: rest => matchDocument rt doc q || matchAnyQ rt doc rest

/-- `value.every(condition => matchDocument(doc, condition))`. -/
def matchAllQ (rt : Value → Option Value → Bool) (doc : Doc) : List Query → Bool
  | [] => true
  | q :: rest => matchDocument rt doc q && matchAllQ rt doc rest

end

/-- The comparator built by `Collection.sortDocuments` (`src/lib/IndexManager.js:598`)
from a sort specification (field, direction) list: first differing field
decides, `1` meaning ascending and anything else descending. -/
def compareDocs (sortSpec : List (String × Int)) (a b : Doc) : Int :=
  match sortSpec with
  | [] => 0
  | (field, direction) :: rest =>
    let aVal := getField a field
    let bVal := getField b field
    if jsLtO aVal bVal then (if direction == 1 then -1 else 1)
    else if jsGtO aVal bVal then (if direction == 1 then 1 else -1)
    else compareDocs rest a b

/-- Embeds `Collection.sortDocuments`: `Array.prototype.sort` with the
multi-key comparator is a stable comparator sort, modelled by a stable merge
sort that keeps `a` before `b` whenever the comparator does not order `b`
strictly first. -/
def sortDocuments (documents : List Doc) (sortSpec : List (String × Int)) : List Doc :=
  documents.mergeSort (fun a b => decide (compareDocs sortSpec a b ≤ 0))

/-- The options object accepted by `Collection.find`; `none` models an absent
property. -/
structure FindOptions where
  sort : Option (List (String × Int))
  limit : Option Nat
  skip : Option Nat

/-- Embeds `Collection.find` (`src/lib/IndexManager.js:443`) over the loaded
document list: filter by the query, then — in the source's textual order —
the `options.sort` block, the `options.limit` block (`slice(0, limit)`), and
the `options.skip` block (`slice(skip)`).  The `if (options.limit)` and
`if (options.skip)` truthiness tests make a present `0` behave like an
absent option. -/
def find (rt : Value → Option Value → Bool) (documents : List Doc)
    (query : Query) (options : FindOptions) : List Doc :=
  let results := documents.filter (fun doc => matchDocument rt doc query)
  let results :=
    match options.sort with
    | some s => sortDocuments results s
    | none => results
  let results :=
    match options.limit with
    | some n => if n == 0 then results else results.take n
    | none => results
  let results :=
    match options.skip with
    | some n => if n == 0 then results else results.drop n
    | none => results
  results

/-- The `sort` stage of `find`, as a standalone stage function. -/
def applySortStage (sortSpec : Option (List (String × Int))) (results : List Doc) : List Doc :=
  match sortSpec with
  | some s => sortDocuments results s
  | none => results

/-- The `limit` stage of `find` (`results.slice(0, limit)` when truthy). -/
def applyLimitStage (limit : Option Nat) (results : List Doc) : List Doc :=
  match limit with
  | some n => if n == 0 then results else results.take n
  | none => results

/-- The `skip` stage of `find` (`results.slice(skip)` when truthy). -/
def applySkipStage (skip : Option Nat) (results : List Doc) : List Doc :=
  match skip with
  | some n => if n == 0 then results else results.drop n
  | none => results

/-- Follows the spec's words, not the source: "applies `sort` …, then `skip`,
then `limit`, in that fixed order", i.e. `limit(skip(sort(filter(docs))))`.
Kept for comparison with `find`. -/
def findSpecOrdered (rt : Value → Option Value → Bool) (documents : List Doc)
    (query : Query) (options : FindOptions) : List Doc :=
  applyLimitStage options.limit
    (applySkipStage options.skip
      (applySortStage options.sort
        (documents.filter (fun doc => matchDocument rt doc query))))

/-- Embeds `Collection.count` (`src/lib/IndexManager.js:547`). -/
def count (rt : Value → Option Value → Bool) (documents : List Doc) (query : Query) : Nat :=
  (documents.filter (fun doc => matchDocument rt doc query)).length

/-- An empty options object, as passed when `find` is called with one
argument. -/
def noOptions : FindOptions := FindOptions.mk none none none

/-- JavaScript `+` restricted to the kinds `$inc` exercises: numeric addition
on numbers; when a string is involved, `+` concatenates the operands' string
forms; other kind mixes (which coerce through `NaN` in JavaScript) are not
modelled further and return the left operand's numeric reading, 0. -/
def jsAdd : Value → Value → Value
  | Value.vNum a, Value.vNum b => Value.vNum (a + b)
  | Value.vStr a, b => Value.vStr (a ++ jsToString b)
  | a, Value.vStr b => Value.vStr (jsToString a ++ b)
  | _, _ => Value.vNum 0

/-- `Object.entries(value)` as used by the update operators: entries of an
object; a primitive has no enumerable own properties. -/
def docEntries : Value → List (String × Value)
  | Value.vDoc fields => fields
  | _ => []

/-- `Object.assign(updated, value)`: copy each entry left to right. -/
def objAssign (updated : Doc) (entries : List (String × Value)) : Doc :=
  entries.foldl (fun acc p => setKey acc p.1 p.2) updated

/-- The `$unset` loop: `delete updated[field]` for each key. -/
def delKeys (updated : Doc) (entries : List (String × Value)) : Doc :=
  entries.foldl (fun acc p => delKey acc p.1) updated

/-- The `$inc` loop: `updated[field] = (updated[field] || 0) + amount`. -/
def incFields (updated : Doc) (entries : List (String × Value)) : Doc :=
  entries.foldl
    (fun acc p =>
      let cur :=
        match getField acc p.1 with
        | some v => if isTruthy v then v else Value.vNum 0
        | none => Value.vNum 0
      setKey acc p.1 (jsAdd cur p.2))
    updated

/-- The `$push` loop: replace a non-array field by `[]`, then push the item. -/
def pushFields (updated : Doc) (entries : List (String × Value)) : Doc :=
  entries.foldl
    (fun acc p =>
      match getField acc p.1 with
      | some (Value.vArr elems) => setKey acc p.1 (Value.vArr (elems ++ [p.2]))
      | _ => setKey acc p.1 (Value.vArr [p.2]))
    updated

/-- One arm of the `switch (operator)` in `Collection.applyUpdate`
(`src/lib/IndexManager.js:610`); an unrecognized operator falls through the
`switch` and leaves the document unchanged. -/
def applyOp (updated : Doc) (operator : String) (value : Value) : Doc :=
  if operator == "$set" then objAssign updated (docEntries value)
  else if operator == "$unset" then delKeys updated (docEntries value)
  else if operator == "$inc" then incFields updated (docEntries value)
  else if operator == "$push" then pushFields updated (docEntries value)
  else updated

/-- Embeds `Collection.applyUpdate`: start from a copy of the document and
fold the update object's entries through the operator switch. -/
def applyUpdate (doc : Doc) (update : Doc) : Doc :=
  update.foldl (fun acc p => applyOp acc p.1 p.2) doc

/-- The identifier normalization at the top of `insertOne` / `insertMany`:
a falsy `_id` is replaced by a fresh `ObjectId` (drawn from a supply counter
`nextId`), a string `_id` is wrapped into an `ObjectId`, any other truthy
`_id` is kept. -/
def normalizeId (nextId : Nat) (document : Doc) : Doc × Nat :=
  match getField document "_id" with
  | some v =>
    if isTruthy v then
      match v with
      | Value.vStr s => (setKey document "_id" (Value.vId s), nextId)
      | _ => (document, nextId)
    else (setKey document "_id" (Value.vId ("generated-" ++ toString nextId)), nextId + 1)
  | none => (setKey document "_id" (Value.vId ("generated-" ++ toString nextId)), nextId + 1)

/-- The persistence and index side effects a collection operation performs,
in order: `saveData(docs)` writes the whole snapshot, `updIndex` is
`indexManager.updateIndex(name, newDoc, oldDoc)`, `remIndex` is
`indexManager.removeFromIndex(name, doc)`. -/
inductive Effect where
  | save (docs : List Doc)
  | updIndex (newDoc : Doc) (oldDoc : Option Doc)
  | remIndex (doc : Doc)

/-- A collection's state as the operations observe it: the stored snapshot
(`loadData`'s result) plus the `ObjectId` supply counter. -/
structure CollState where
  docs : List Doc
  nextId : Nat

/-- Embeds `Collection.insertOne` (`src/lib/IndexManager.js:408`): normalize
the `_id`, append to the loaded snapshot, save, update indexes, and return
the stored document. -/
def insertOne (st : CollState) (document : Doc) : Doc × CollState × List Effect :=
  let (doc, next) := normalizeId st.nextId document
  let docs := st.docs ++ [doc]
  (doc, CollState.mk docs next, [Effect.save docs, Effect.updIndex doc none])

/-- The normalization loop at the top of `insertMany`. -/
def normalizeAll (nextId : Nat) : List Doc → List Doc × Nat
  | [] => ([], nextId)
  | d :: rest =>
    let (d', n') := normalizeId nextId d
    let (ds, n'') := normalizeAll n' rest
    (d' :: ds, n'')

/-- Embeds `Collection.insertMany` (`src/lib/IndexManager.js:423`): normalize
every `_id`, append all documents to the loaded snapshot, save once, then
update indexes per document. -/
def insertMany (st : CollState) (documents : List Doc) : List Doc × CollState × List Effect :=
  let (docs', next') := normalizeAll st.nextId documents
  let all := st.docs ++ docs'
  (docs', CollState.mk all next',
    Effect.save all :: docs'.map (fun d => Effect.updIndex d none))

/-- `documents.findIndex(doc => matchDocument(doc, query))`, returning the
documents before the first match, the match, and the documents after it. -/
def findMatchSplit (rt : Value → Option Value → Bool) (query : Query) :
    List Doc → Option (List Doc × Doc × List Doc)
  | [] => none
  | d :: rest =>
    if matchDocument rt d query then some ([], d, rest)
    else
      match findMatchSplit rt query rest with
      | some (pre, m, post) => some (d :: pre, m, post)
      | none => none

/-- `update.$set || update`: the document handed to `insertOne` on the upsert
path.  A truthy non-object `$set` payload is not a document and falls outside
the model (the source would hand the raw value to `insertOne`). -/
def upsertPayload (update : Doc) : Doc :=
  match getField update "$set" with
  | some v => if isTruthy v then docEntries v else update
  | none => update

/-- Embeds `Collection.updateOne` (`src/lib/IndexManager.js:471`): locate the
first match; on no match either upsert via `insertOne(update.$set || update)`
or return `null` having performed no side effect; on a match apply the update,
save the modified snapshot and update indexes with the old and new document. -/
def updateOne (rt : Value → Option Value → Bool) (st : CollState)
    (query : Query) (update : Doc) (upsert : Bool) :
    Option Doc × CollState × List Effect :=
  match findMatchSplit rt query st.docs with
  | none =>
    if upsert then
      let (d, st', effs) := insertOne st (upsertPayload update)
      (some d, st', effs)
    else (none, st, [])
  | some (pre, oldDoc, post) =>
    let updatedDoc := applyUpdate oldDoc update
    let docs := pre ++ updatedDoc :: post
    (some updatedDoc, CollState.mk docs st.nextId,
      [Effect.save docs, Effect.updIndex updatedDoc (some oldDoc)])

/-- Raw file contents, one byte per entry. -/
abbrev Bytes := List Nat

/-- Embeds `Collection.loadData` (`src/lib/IndexManager.js:386`).
`fileBytes = none` models a failed `fs.readFile` (outer catch: return `[]`);
`decrypt` is the database's `encryption.decrypt`; `deser` models bson
`deserialize`, returning `none` when it throws, and otherwise whether the
parsed object carries a `documents` array (`parsed.documents || []`).
Every branch returns a document list; no branch surfaces an error. -/
def loadData (fileBytes : Option Bytes) (decrypt : Bytes → Bytes)
    (deser : Bytes → Option (Option (List Doc))) : List Doc :=
  match fileBytes with
  | none => []
  | some encryptedData =>
    match deser (decrypt encryptedData) with
    | none => []
    | some docsField =>
      match docsField with
      | some docs => docs
      | none => []

/-- `Encryption.ivLength` (`src/unnamed/part_004`). -/
def ivLength : Nat := 16

/-- Embeds `Encryption.decrypt` (`src/unnamed/part_004:167`).  `enabled` is
the codec's mode flag; `cipher iv rest` models
`createDecipheriv` + `update` + `final` over the split input, with `none`
standing for a thrown cipher error, which the source's `catch` turns back
into the input bytes.  An input shorter than one IV length is returned
unchanged after a console warning. -/
def decryptBytes (enabled : Bool) (cipher : Bytes → Bytes → Option Bytes)
    (encryptedData : Bytes) : Bytes :=
  if !enabled then encryptedData
  else if encryptedData.length < ivLength then encryptedData
  else
    match cipher (encryptedData.take ivLength) (encryptedData.drop ivLength) with
    | some decrypted => decrypted
    | none => encryptedData

/-- Embeds `IndexManager.getNestedValue` (`src/lib/IndexManager.js:246`):
`path.split('.').reduce((acc, part) => acc && acc[part], obj)`.  A falsy
accumulator is returned as-is by `&&`; property access on a non-object
yields `undefined`. -/
def getNestedStep (acc : Option Value) (part : String) : Option Value :=
  match acc with
  | none => none
  | some v =>
    if !isTruthy v then some v
    else
      match v with
      | Value.vDoc fields => getField fields part
      | _ => none

/-- The reduce over the split path, starting from the document object. -/
def getNestedValue (doc : Doc) (path : String) : Option Value :=
  (path.splitOn ".").foldl getNestedStep (some (Value.vDoc doc))

/-- Embeds `IndexManager.getDocumentIndexKey` (`src/lib/IndexManager.js:239`):
the field values' string forms joined by `::`, with `'null'` substituted for
`undefined`. -/
def getDocumentIndexKey (doc : Doc) (fields : List String) : String :=
  String.intercalate "::"
    (fields.map (fun field =>
      match getNestedValue doc field with
      | some value => jsToString value
      | none => "null"))

/-- `doc._id.toString()`; a document without `_id` would throw in the source
and is modelled as the string form of `null`. -/
def oidString (doc : Doc) : String :=
  match getField doc "_id" with
  | some v => jsToString v
  | none => "null"

/-- The `data` map of an index file: composite key → list of identifier
strings, as a JavaScript object (insertion-ordered association list). -/
abbrev FileIndexData := List (String × List String)

/-- Key lookup in the index `data` object. -/
def fiLookup (data : FileIndexData) (k : String) : Option (List String) :=
  match data with
  | [] => none
  | (k', l) :: rest => if k' == k then some l else fiLookup rest k

/-- Assignment in the index `data` object (existing key keeps its position). -/
def fiSet (data : FileIndexData) (k : String) (l : List String) : FileIndexData :=
  match data with
  | [] => [(k, l)]
  | (k', l') :: rest => if k' == k then (k, l) :: rest else (k', l') :: fiSet rest k l

/-- `delete indexData.data[key]`. -/
def fiDel (data : FileIndexData) (k : String) : FileIndexData :=
  data.filter (fun p => p.1 ≠ k)

/-- The "Remove old document" phase of `IndexManager.updateFileIndex`
(`src/lib/IndexManager.js:264`): filter the old document's id out of its old
composite key's list, deleting the key if the list empties. -/
def fiRemoveOld (fields : List String) (data : FileIndexData) : Option Doc → FileIndexData
  | none => data
  | some od =>
    let oldKey := getDocumentIndexKey od fields
    match fiLookup data oldKey with
    | some l =>
      let l' := l.filter (fun id => id ≠ oidString od)
      if l' = [] then fiDel data oldKey else fiSet data oldKey l'
    | none => data

/-- The "Add new document" phase of `IndexManager.updateFileIndex`
(`src/lib/IndexManager.js:277`): create the new composite key's list if
absent, then push the new document's id unless `includes` already finds it. -/
def fiAddNew (fields : List String) (data : FileIndexData) (newDoc : Doc) : FileIndexData :=
  let newKey := getDocumentIndexKey newDoc fields
  match fiLookup data newKey with
  | none => fiSet data newKey [oidString newDoc]
  | some l => if oidString newDoc ∈ l then data else fiSet data newKey (l ++ [oidString newDoc])

/-- The `data`-map transformation performed by `IndexManager.updateFileIndex`
(`src/lib/IndexManager.js:250`) on a successfully read and parsed index file:
remove the old document's id from its old composite key, then add the new
document's id under its new composite key. -/
def updateFileIndexData (fields : List String) (data : FileIndexData)
    (newDoc : Doc) (oldDoc : Option Doc) : FileIndexData :=
  fiAddNew fields (fiRemoveOld fields data oldDoc) newDoc

/-- One recorded `updateFileIndex` call: the index's field list, the new
document, and the optional old document. -/
structure FileIndexOp where
  fields : List String
  newDoc : Doc
  oldDoc : Option Doc

/-- Replay a sequence of `updateFileIndex` calls against the empty `data`
map that `createIndex` writes. -/
def runFileIndexOps (ops : List FileIndexOp) : FileIndexData :=
  ops.foldl (fun data op => updateFileIndexData op.fields data op.newDoc op.oldDoc) []

/-- Every composite key's identifier list is duplicate-free. -/
def fiNodup (data : FileIndexData) : Prop :=
  ∀ p ∈ data, p.2.Nodup

/-- Identifier uniqueness: the `_id` values of the stored documents are
pairwise distinct. -/
def idsUnique (docs : List Doc) : Prop :=
  docs.Pairwise (fun a b => getField a "_id" ≠ getField b "_id")

/-! ## Theorems settling the claims -/

/-- C6: for every stored document list and every query, `count` equals the
length of `find` with no options; both retain exactly the documents accepted
by `matchDocument`. -/
theorem count_eq_find_length (rt : Value → Option Value → Bool)
    (documents : List Doc) (query : Query) :
    count rt documents query = (find rt documents query noOptions).length := rfl

/-- C1 (amended): `Collection.find` applies the sort comparator first, then
`limit`, then `skip`, in that fixed order — the result equals
`skip(limit(sort(filter(docs, query)), limit), skip)`. -/
theorem find_applies_sort_then_limit_then_skip (rt : Value → Option Value → Bool)
    (documents : List Doc) (query : Query) (options : FindOptions) :
    find rt documents query options =
      applySkipStage options.skip
        (applyLimitStage options.limit
          (applySortStage options.sort
            (documents.filter (fun doc => matchDocument rt doc query)))) := rfl

/-- Three documents, all matching the empty query. -/
def exDocs : List Doc :=
  [[("x", Value.vNum 1)], [("x", Value.vNum 2)], [("x", Value.vNum 3)]]

/-- A regex matcher instance for concrete evaluations (no claim exercises
`$regex` concretely). -/
def rtNone : Value → Option Value → Bool := fun _ _ => false

/-- `{ skip: 1, limit: 2 }`. -/
def exOptions : FindOptions := FindOptions.mk none (some 2) (some 1)

/-- C1 (counterexample): on three matching documents with `skip: 1, limit: 2`
the source's `find` returns one document while the claimed
sort-skip-limit pipeline returns two, so the claim as stated is false. -/
theorem find_spec_order_counterexample :
    find rtNone exDocs [] exOptions ≠ findSpecOrdered rtNone exDocs [] exOptions := by
  intro h
  have h1 : (find rtNone exDocs [] exOptions).length = 1 := rfl
  have h2 : (findSpecOrdered rtNone exDocs [] exOptions).length = 2 := rfl
  rw [h, h2] at h1
  exact absurd h1 (by decide)

/-- The operator strings `Collection.matchOperator` has `case` arms for. -/
def supportedOperators : List String :=
  ["$eq", "$ne", "$gt", "$gte", "$lt", "$lte", "$in", "$nin", "$regex"]

lemma matchOperator_not_supported (rt : Value → Option Value → Bool)
    (fv : Option Value) (op : String) (v : Value)
    (h : op ∉ supportedOperators) : matchOperator rt fv op v = false := by
  simp only [supportedOperators, List.mem_cons, List.not_mem_nil, or_false, not_or] at h
  obtain ⟨h1, h2, h3, h4, h5, h6, h7, h8, h9⟩ := h
  simp [matchOperator, h1, h2, h3, h4, h5, h6, h7, h8, h9]

lemma matchOps_append_false (rt : Value → Option Value → Bool) (fv : Option Value)
    (op : String) (v : Value) (pre post : List (String × Value))
    (h : matchOperator rt fv op v = false) :
    matchOps rt fv (pre ++ (op, v) :: post) = false := by
  induction pre with
  | nil => simp [matchOps, h]
  | cons p rest ih => simp [matchOps, ih]

/-- C8: an operator string outside the supported set makes `matchOperator`
evaluate to `false` for every field value and operand, and consequently a
field condition whose operator map contains such an operator matches no
document. -/
theorem unknown_operator_fails_closed (rt : Value → Option Value → Bool)
    (fv : Option Value) (op : String) (v : Value)
    (h : op ∉ supportedOperators) :
    matchOperator rt fv op v = false ∧
    ∀ (doc : Doc) (k : String) (pre post : List (String × Value)),
      k ≠ "$or" → k ≠ "$and" →
      matchDocument rt doc [(k, QVal.obj (pre ++ (op, v) :: post))] = false := by
  refine ⟨matchOperator_not_supported rt fv op v h, ?_⟩
  intro doc k pre post hk1 hk2
  simp [matchDocument, matchEntry, hk1, hk2]
  exact matchOps_append_false rt (getField doc k) op v pre post
    (matchOperator_not_supported rt (getField doc k) op v h)

/-- C8 witness: the theorem applied to the concrete unknown operator `$foo`
on a concrete document. -/
theorem unknown_operator_fails_closed_witness :
    "$foo" ∉ supportedOperators ∧
    matchOperator rtNone (some (Value.vNum 1)) "$foo" (Value.vNum 1) = false ∧
    matchDocument rtNone [("a", Value.vNum 1)]
      [("a", QVal.obj [("$foo", Value.vNum 1)])] = false := by
  have h : "$foo" ∉ supportedOperators := by decide
  have hmain := unknown_operator_fails_closed rtNone (some (Value.vNum 1)) "$foo" (Value.vNum 1) h
  exact ⟨h, hmain.1, hmain.2 [("a", Value.vNum 1)] "a" [] [] (by decide) (by decide)⟩

lemma findMatchSplit_eq_none (rt : Value → Option Value → Bool) (query : Query)
    (docs : List Doc) (h : ∀ d ∈ docs, matchDocument rt d query = false) :
    findMatchSplit rt query docs = none := by
  induction docs with
  | nil => rfl
  | cons d rest ih =>
    simp [findMatchSplit, h d (List.mem_cons_self d rest),
      ih (fun d' hd' => h d' (List.mem_cons_of_mem d hd'))]

/-- C9: `updateOne` with no matching document and upsert disabled returns
`null`, leaves the collection state unchanged and performs no persistence or
index side effect. -/
theorem updateOne_no_match_no_effects (rt : Value → Option Value → Bool)
    (st : CollState) (query : Query) (update : Doc)
    (h : ∀ d ∈ st.docs, matchDocument rt d query = false) :
    updateOne rt st query update false = (none, st, []) := by
  simp [updateOne, findMatchSplit_eq_none rt query st.docs h]

/-- C9 witness: the theorem applied to a one-document collection and a query
matching nothing. -/
theorem updateOne_no_match_no_effects_witness :
    (∀ d ∈ (CollState.mk [[("a", Value.vNum 1)]] 0).docs,
      matchDocument rtNone d [("b", QVal.prim (Value.vNum 2))] = false) ∧
    updateOne rtNone (CollState.mk [[("a", Value.vNum 1)]] 0)
      [("b", QVal.prim (Value.vNum 2))] [] false =
      (none, CollState.mk [[("a", Value.vNum 1)]] 0, []) := by
  have h : ∀ d ∈ (CollState.mk [[("a", Value.vNum 1)]] 0).docs,
      matchDocument rtNone d [("b", QVal.prim (Value.vNum 2))] = false := by
    intro d hd
    simp only [List.mem_singleton] at hd
    subst hd
    rfl
  exact ⟨h, updateOne_no_match_no_effects rtNone _ _ _ h⟩

lemma getField_setKey_self (d : Doc) (k : String) (v : Value) :
    getField (setKey d k v) k = some v := by
  induction d with
  | nil => simp [setKey, getField]
  | cons p rest ih =>
    by_cases hk : p.1 == k
    · simp [setKey, hk, getField]
    · simp [setKey, hk, getField, ih]

lemma getField_normalizeId_isSome (n : Nat) (d : Doc) :
    (getField (normalizeId n d).1 "_id").isSome = true := by
  unfold normalizeId
  cases hg : getField d "_id" with
  | none => simp [getField_setKey_self]
  | some v =>
    by_cases ht : isTruthy v
    · cases v <;> simp [ht, hg, getField_setKey_self]
    · simp [ht, getField_setKey_self]

/-- C7: `updateOne` with upsert enabled and no matching document inserts (and
returns, with its identifier assigned) the document built from
`update.$set || update`: the `$set` payload when a `$set` key is present as a
document, and the update object itself when no `$set` key exists. -/
theorem updateOne_upsert_inserts (rt : Value → Option Value → Bool)
    (st : CollState) (query : Query) (update : Doc)
    (h : ∀ d ∈ st.docs, matchDocument rt d query = false) :
    updateOne rt st query update true =
      (some (normalizeId st.nextId (upsertPayload update)).1,
       CollState.mk (st.docs ++ [(normalizeId st.nextId (upsertPayload update)).1])
         (normalizeId st.nextId (upsertPayload update)).2,
       [Effect.save (st.docs ++ [(normalizeId st.nextId (upsertPayload update)).1]),
        Effect.updIndex (normalizeId st.nextId (upsertPayload update)).1 none]) ∧
    (getField (normalizeId st.nextId (upsertPayload update)).1 "_id").isSome = true ∧
    (∀ s, getField update "$set" = some (Value.vDoc s) → upsertPayload update = s) ∧
    (getField update "$set" = none → upsertPayload update = update) := by
  refine ⟨?_, getField_normalizeId_isSome st.nextId (upsertPayload update), ?_, ?_⟩
  · simp [updateOne, findMatchSplit_eq_none rt query st.docs h, insertOne]
  · intro s hs
    simp [upsertPayload, hs, isTruthy, docEntries]
  · intro hnone
    simp [upsertPayload, hnone]

/-- C7 witness: the theorem applied to an empty collection and an update
object whose `$set` payload maps `name` to `"x"`. -/
theorem updateOne_upsert_inserts_witness :
    (∀ d ∈ (CollState.mk [] 0).docs,
      matchDocument rtNone d [("a", QVal.prim (Value.vNum 1))] = false) ∧
    updateOne rtNone (CollState.mk [] 0) [("a", QVal.prim (Value.vNum 1))]
      [("$set", Value.vDoc [("name", Value.vStr "x")])] true =
      (some (normalizeId 0 (upsertPayload [("$set", Value.vDoc [("name", Value.vStr "x")])])).1,
       CollState.mk [(normalizeId 0 (upsertPayload [("$set", Value.vDoc [("name", Value.vStr "x")])])).1]
         (normalizeId 0 (upsertPayload [("$set", Value.vDoc [("name", Value.vStr "x")])])).2,
       [Effect.save [(normalizeId 0 (upsertPayload [("$set", Value.vDoc [("name", Value.vStr "x")])])).1],
        Effect.updIndex (normalizeId 0 (upsertPayload [("$set", Value.vDoc [("name", Value.vStr "x")])])).1 none]) := by
  have h : ∀ d ∈ (CollState.mk ([] : List Doc) 0).docs,
      matchDocument rtNone d [("a", QVal.prim (Value.vNum 1))] = false := by
    intro d hd
    simp at hd
  have hmain := updateOne_upsert_inserts rtNone (CollState.mk [] 0)
    [("a", QVal.prim (Value.vNum 1))] [("$set", Value.vDoc [("name", Value.vStr "x")])] h
  exact ⟨h, hmain.1⟩

lemma fiLookup_mem (data : FileIndexData) (k : String) (l : List String)
    (h : fiLookup data k = some l) : (k, l) ∈ data := by
  induction data with
  | nil => simp [fiLookup] at h
  | cons q rest ih =>
    obtain ⟨k', l'⟩ := q
    by_cases hk : k' = k
    · subst hk
      simp only [fiLookup, beq_self_eq_true, if_true] at h
      injection h with h
      subst h
      exact List.mem_cons_self _ _
    · have hkb : (k' == k) = false := by simpa using hk
      simp only [fiLookup, hkb, Bool.false_eq_true, if_false] at h
      exact List.mem_cons_of_mem _ (ih h)

lemma fiNodup_fiSet (data : FileIndexData) (k : String) (l : List String)
    (hd : fiNodup data) (hl : l.Nodup) : fiNodup (fiSet data k l) := by
  induction data with
  | nil =>
    intro p hp
    simp only [fiSet, List.mem_singleton] at hp
    subst hp
    exact hl
  | cons q rest ih =>
    obtain ⟨k', l'⟩ := q
    intro p hp
    by_cases hk : k' = k
    · subst hk
      simp only [fiSet, beq_self_eq_true, if_true, List.mem_cons] at hp
      rcases hp with hp | hp
      · subst hp
        exact hl
      · exact hd p (List.mem_cons_of_mem _ hp)
    · have hkb : (k' == k) = false := by simpa using hk
      simp only [fiSet, hkb, Bool.false_eq_true, if_false, List.mem_cons] at hp
      rcases hp with hp | hp
      · subst hp
        exact hd _ (List.mem_cons_self _ _)
      · exact ih (fun r hr => hd r (List.mem_cons_of_mem _ hr)) p hp

lemma fiNodup_fiDel (data : FileIndexData) (k : String)
    (hd : fiNodup data) : fiNodup (fiDel data k) :=
  fun p hp => hd p (List.mem_of_mem_filter hp)

lemma fiNodup_fiRemoveOld (fields : List String) (data : FileIndexData)
    (oldDoc : Option Doc) (hd : fiNodup data) :
    fiNodup (fiRemoveOld fields data oldDoc) := by
  cases oldDoc with
  | none => exact hd
  | some od =>
    simp only [fiRemoveOld]
    cases hl : fiLookup data (getDocumentIndexKey od fields) with
    | none => exact hd
    | some l =>
      simp only
      split
      · exact fiNodup_fiDel data _ hd
      · exact fiNodup_fiSet data _ _ hd
          ((hd (getDocumentIndexKey od fields, l) (fiLookup_mem data _ l hl)).filter _)

lemma fiNodup_fiAddNew (fields : List String) (data : FileIndexData)
    (newDoc : Doc) (hd : fiNodup data) : fiNodup (fiAddNew fields data newDoc) := by
  simp only [fiAddNew]
  cases hl : fiLookup data (getDocumentIndexKey newDoc fields) with
  | none => exact fiNodup_fiSet data _ _ hd (List.nodup_singleton _)
  | some l =>
    simp only
    split
    · exact hd
    · rename_i hmem
      refine fiNodup_fiSet data _ _ hd ?_
      have hln : l.Nodup := hd (getDocumentIndexKey newDoc fields, l) (fiLookup_mem data _ l hl)
      simp [List.nodup_append, hln, hmem]

lemma fiNodup_updateFileIndexData (fields : List String) (data : FileIndexData)
    (newDoc : Doc) (oldDoc : Option Doc) (hd : fiNodup data) :
    fiNodup (updateFileIndexData fields data newDoc oldDoc) :=
  fiNodup_fiAddNew fields _ newDoc (fiNodup_fiRemoveOld fields data oldDoc hd)

lemma fiNodup_foldl (ops : List FileIndexOp) (data : FileIndexData) (hd : fiNodup data) :
    fiNodup (ops.foldl
      (fun acc op => updateFileIndexData op.fields acc op.newDoc op.oldDoc) data) := by
  induction ops generalizing data with
  | nil => exact hd
  | cons op rest ih =>
    exact ih _ (fiNodup_updateFileIndexData op.fields data op.newDoc op.oldDoc hd)

/-- C10: replaying any sequence of `updateFileIndex` calls from the empty
index `data` map leaves every composite key's identifier list duplicate-free
(in particular, after each call of the sequence, since every prefix is itself
such a sequence). -/
theorem updateFileIndex_ids_nodup (ops : List FileIndexOp) :
    fiNodup (runFileIndexOps ops) :=
  fiNodup_foldl ops [] (fun p hp => by simp at hp)

/-- A document whose `_id` duplicates one already stored. -/
def dupIdDoc : Doc := [("_id", Value.vId "a")]

/-- C2 (code bug evidence): `insertOne`, given a document whose `_id` equals
a stored document's `_id`, appends it without any duplicate check, producing
a state whose stored documents do not have pairwise-distinct identifiers. -/
theorem insertOne_duplicate_id_violation :
    (insertOne (CollState.mk [dupIdDoc] 0) dupIdDoc).2.1.docs = [dupIdDoc, dupIdDoc] ∧
    ¬ idsUnique [dupIdDoc, dupIdDoc] := by
  refine ⟨rfl, ?_⟩
  intro h
  rw [idsUnique, List.pairwise_cons] at h
  exact h.1 dupIdDoc (List.mem_singleton.mpr rfl) rfl

/-- C3 (code bug evidence): when the data file's bytes are read and decrypted
but bson deserialization throws, `loadData` returns the empty document list;
its return type has no error case at all, so no corruption error can surface
to `find` or any other reader. -/
theorem loadData_parse_failure_returns_empty (decrypt : Bytes → Bytes) :
    loadData (some [0, 1, 2]) decrypt (fun _ => none) = [] := rfl

/-- C4 (code bug evidence): with encryption active, `decrypt` hands back any
input shorter than one IV length (16 bytes) unchanged — for every cipher —
instead of failing with a `CryptoError`. -/
theorem decrypt_short_input_returned_unchanged (cipher : Bytes → Bytes → Option Bytes) :
    decryptBytes true cipher [1, 2, 3] = [1, 2, 3] := by
  simp [decryptBytes, ivLength]

/-- C5 (code bug evidence): `applyUpdate` lets `$set` overwrite the `_id`
field and `$unset` remove it, so update application can change or delete the
identifier. -/
theorem applyUpdate_mutates_id :
    getField (applyUpdate [("_id", Value.vId "a"), ("x", Value.vNum 1)]
      [("$set", Value.vDoc [("_id", Value.vId "b")])]) "_id" = some (Value.vId "b") ∧
    getField (applyUpdate [("_id", Value.vId "a")]
      [("$unset", Value.vDoc [("_id", Value.vNum 1)])]) "_id" = none := by
  exact ⟨rfl, rfl⟩

end BsonDB
